import Mathlib

/-!
Shallow embedding of the betta-miniapp fish progression subsystem:

* `src/src/app/api/feed/route.ts`      — the feed route (cooldown, exp gain, level-up, JSON db
  `data/betta-progress.json` keyed by tokenId, record field `lastFedAt`);
* `src/src/app/api/progress/route.ts`  — the batch progress query (read-only, JSON db
  `database-fish.json`, record field `lastFeedAt`);
* `src/src/lib/fishProgressStore.ts`   — the in-memory/JSON progress store
  (records keyed by `tokenId:rarity`).

JavaScript numbers on these code paths are always integer-valued (times in ms,
levels, experience), so they are modelled as `Int`.  File/disk I/O is modelled
as a map from path to parsed content; the in-memory stores are modelled as
functions from key to optional record.
-/

namespace Betta

/-- The `Rarity` union type, identical in all three source files. -/
inductive Rarity where
  | COMMON
  | UNCOMMON
  | RARE
  | EPIC
  | LEGENDARY
  | SPIRIT
deriving DecidableEq, Repr

/-- `MAX_LEVEL_BY_RARITY`, the identical static table in all three source files. -/
def MAX_LEVEL_BY_RARITY : Rarity → Int
  | .COMMON => 15
  | .UNCOMMON => 20
  | .RARE => 30
  | .SPIRIT => 25
  | .EPIC => 40
  | .LEGENDARY => 50

/-- `expNeeded` from `src/src/lib/fishProgressStore.ts`:
`if (level < 1) return 100; return 100 + (level - 1) * 40;`.
This is also the spec's canonical experience-threshold formula. -/
def expNeeded (level : Int) : Int :=
  if level < 1 then 100 else 100 + (level - 1) * 40

/-- `getMaxLevelForRarity` from `src/src/lib/fishProgressStore.ts`.  The source's
`?? 1` fallback is unreachable here because `Rarity` is total. -/
def getMaxLevelForRarity (rarity : Rarity) : Int :=
  MAX_LEVEL_BY_RARITY rarity

/-- ASCII single-character uppercasing, modelling `String.prototype.toUpperCase`
on the ASCII strings this service compares against. -/
def jsToUpperChar (c : Char) : Char :=
  if 'a' ≤ c ∧ c ≤ 'z' then Char.ofNat (c.toNat - 32) else c

/-- ASCII single-character lowercasing, modelling `String.prototype.toLowerCase`. -/
def jsToLowerChar (c : Char) : Char :=
  if 'A' ≤ c ∧ c ≤ 'Z' then Char.ofNat (c.toNat + 32) else c

/-- `String.prototype.toUpperCase`, modelled on the ASCII range. -/
def jsToUpper (s : String) : String := ⟨s.data.map jsToUpperChar⟩

/-- `String.prototype.toLowerCase`, modelled on the ASCII range. -/
def jsToLower (s : String) : String := ⟨s.data.map jsToLowerChar⟩

/-- The common JavaScript whitespace characters `String.prototype.trim` strips. -/
def jsIsSpace (c : Char) : Bool := c = ' ' ∨ c = '\t' ∨ c = '\n' ∨ c = '\r'

/-- `String.prototype.trim`: strip whitespace from both ends. -/
def jsTrim (s : String) : String :=
  ⟨((s.data.dropWhile jsIsSpace).reverse.dropWhile jsIsSpace).reverse⟩

/-- The membership test `rarity in MAX_LEVEL_BY_RARITY` of the feed route,
returning the matched enumeration tag. -/
def parseRarity (s : String) : Option Rarity :=
  if s = "COMMON" then some .COMMON
  else if s = "UNCOMMON" then some .UNCOMMON
  else if s = "RARE" then some .RARE
  else if s = "EPIC" then some .EPIC
  else if s = "LEGENDARY" then some .LEGENDARY
  else if s = "SPIRIT" then some .SPIRIT
  else none

namespace FeedRoute

/-- `EXP_PER_FEED` in `src/src/app/api/feed/route.ts`. -/
def EXP_PER_FEED : Int := 20

/-- `FEED_COOLDOWN_MS = 30 * 60 * 1000` in `src/src/app/api/feed/route.ts`. -/
def FEED_COOLDOWN_MS : Int := 30 * 60 * 1000

/-- `DbRecord` of the feed route (`data/betta-progress.json` entry).  The fields
are modelled as present integers; the route's `?? 1` / `?? 0` fallbacks only
apply to hand-edited files with missing fields, which are outside this model. -/
structure DbRecord where
  level : Int
  exp : Int
  lastFedAt : Int
deriving DecidableEq, Repr

/-- `DbShape` of the feed route: tokenId-keyed record map. -/
def FeedDb := String → Option DbRecord

/-- The empty JSON object `{}` the feed route starts from. -/
def emptyFeedDb : FeedDb := fun _ => none

/-- JavaScript `db[key] = rec` on a `DbShape`. -/
def setRec (db : FeedDb) (key : String) (rec : DbRecord) : FeedDb :=
  fun k => if k = key then some rec else db k

/-- `expNeededForLevel` of the feed route:
`if (level >= maxLevel) return 0; return 100 + (level - 1) * 40;`. -/
def expNeededForLevel (rarity : Rarity) (level : Int) : Int :=
  if MAX_LEVEL_BY_RARITY rarity ≤ level then 0
  else 100 + (level - 1) * 40

/-- The feed route's level-up `while` loop, with an explicit fuel argument so
that it is structurally recursive.  Each iteration strictly increments `level`
while `level < maxLevel`, so fuel `(maxLevel - level).toNat` is exact:
exhausted fuel coincides with the loop's own exit condition. -/
def levelLoopF (rarity : Rarity) : Nat → Int → Int → Int × Int
  | 0, level, exp => (level, exp)
  | n + 1, level, exp =>
    let needed := expNeededForLevel rarity level
    if 0 < needed ∧ needed ≤ exp ∧ level < MAX_LEVEL_BY_RARITY rarity then
      levelLoopF rarity n (level + 1) (exp - needed)
    else (level, exp)

/-- `while (expNeededNext > 0 && exp >= expNeededNext && level < maxLevel)`
of the feed route, run with sufficient fuel. -/
def levelLoop (rarity : Rarity) (level exp : Int) : Int × Int :=
  levelLoopF rarity (MAX_LEVEL_BY_RARITY rarity - level).toNat level exp

/-- The JSON responses the feed route can produce. -/
inductive FeedResponse where
  | missingParams
  | invalidRarity
  | onCooldown (remainingMs level exp expNeededNext : Int) (isMax : Bool)
  | ok (level exp expNeededNext : Int) (isMax : Bool) (cooldownMs : Int)
deriving DecidableEq, Repr

/-- One feed route invocation's observable outcome: the JSON response plus the
record written through `saveDb` (`none` when `saveDb` is not called). -/
structure FeedOutcome where
  resp : FeedResponse
  write : Option DbRecord
deriving DecidableEq, Repr

/-- The feed route from `// Kalau sudah max` on: max-level refresh, or exp gain
with the level-up loop and the clamp-at-cap, given the starting `level`/`exp`
(`existing?.level ?? 1`, `existing?.exp ?? 0`). -/
def feedGrow (rarity : Rarity) (level0 exp0 now : Int) : FeedOutcome :=
  let maxLevel := MAX_LEVEL_BY_RARITY rarity
  if maxLevel ≤ level0 then
    ⟨.ok level0 exp0 0 true FEED_COOLDOWN_MS, some ⟨level0, exp0, now⟩⟩
  else
    let exp1 := exp0 + EXP_PER_FEED
    let p := levelLoop rarity level0 exp1
    if maxLevel ≤ p.1 then
      ⟨.ok maxLevel 0 0 true FEED_COOLDOWN_MS, some ⟨maxLevel, 0, now⟩⟩
    else
      ⟨.ok p.1 p.2 (expNeededForLevel rarity p.1) false FEED_COOLDOWN_MS,
        some ⟨p.1, p.2, now⟩⟩

/-- The feed route's core (after body validation): cooldown gate, then
`feedGrow`.  `existing?.lastFedAt` truthiness is `lastFedAt ≠ 0`. -/
def feedCore (db : FeedDb) (key : String) (rarity : Rarity) (now : Int) : FeedOutcome :=
  match db key with
  | some existing =>
    if existing.lastFedAt ≠ 0 ∧ now - existing.lastFedAt < FEED_COOLDOWN_MS then
      let remainingMs := FEED_COOLDOWN_MS - (now - existing.lastFedAt)
      let expNeededNext := expNeededForLevel rarity existing.level
      let isMax : Bool :=
        decide (MAX_LEVEL_BY_RARITY rarity ≤ existing.level) || decide (expNeededNext = 0)
      ⟨.onCooldown remainingMs existing.level existing.exp expNeededNext isMax, none⟩
    else feedGrow rarity existing.level existing.exp now
  | none => feedGrow rarity 1 0 now

/-- Apply a feed outcome's write (if any) to the in-memory db, as `saveDb` does. -/
def feedApply (db : FeedDb) (key : String) (o : FeedOutcome) : FeedDb :=
  match o.write with
  | some rec => setRec db key rec
  | none => db

/-- One post-validation feed call `(tokenId, rarity, now)` acting on the db. -/
def feedStep (db : FeedDb) (c : String × Rarity × Int) : FeedDb :=
  feedApply db c.1 (feedCore db c.1 c.2.1 c.2.2)

/-- A sequence of post-validation feed calls acting on the db. -/
def runFeeds (db : FeedDb) (calls : List (String × Rarity × Int)) : FeedDb :=
  calls.foldl feedStep db

end FeedRoute

namespace ProgressRoute

/-- `RawDbRecord` of the progress route (`database-fish.json` entry).  A field
is `none` when it is absent or not a finite number, so that presence models
`Number.isFinite`. -/
structure RawDbRecord where
  level : Option Int
  exp : Option Int
  lastFeedAt : Option Int
  rarity : Option Rarity
deriving DecidableEq, Repr

/-- `DbShape` of the progress route. -/
def ProgDb := String → Option RawDbRecord

/-- The empty db the progress route falls back to (missing file / bad JSON). -/
def emptyProgDb : ProgDb := fun _ => none

/-- `expNeededForLevel` of the progress route, with its `safeLevel` clamp:
`if (level >= maxLevel) return 0; const safeLevel = Math.max(1, Math.min(level, maxLevel));
return 100 + (safeLevel - 1) * 40;`. -/
def expNeededForLevel (rarity : Rarity) (level : Int) : Int :=
  if MAX_LEVEL_BY_RARITY rarity ≤ level then 0
  else 100 + (max 1 (min level (MAX_LEVEL_BY_RARITY rarity)) - 1) * 40

/-- `FishProgress` of the progress route: one reported entry. -/
structure FishProgress where
  level : Int
  exp : Int
  expNeededNext : Int
  isMax : Bool
deriving DecidableEq, Repr

/-- The tail of the progress route's loop body, from the level clamp on, given
`baseLevel` and `baseExp` read from the db record (or their defaults). -/
def entryCore (rarity : Rarity) (baseLevel baseExp : Int) : FishProgress :=
  let maxLevel := MAX_LEVEL_BY_RARITY rarity
  let level := max 1 (min baseLevel maxLevel)
  let expNeededNext := expNeededForLevel rarity level
  let isMax : Bool := decide (maxLevel ≤ level) || decide (expNeededNext = 0)
  if isMax then ⟨level, 0, 0, true⟩
  else if expNeededNext ≤ baseExp then ⟨level, max 0 (expNeededNext - 1), expNeededNext, false⟩
  else ⟨level, baseExp, expNeededNext, false⟩

/-- The body of the progress route's `for (const f of fishes)` loop: the entry
reported for one `(tokenId, rarity)` pair against the loaded db. -/
def entryFor (db : ProgDb) (tokenKey : String) (rarity : Rarity) : FishProgress :=
  let dbRec := db tokenKey
  entryCore rarity
    (match dbRec with | some rec => rec.level.getD 1 | none => 1)
    (match dbRec with | some rec => rec.exp.getD 0 | none => 0)

/-- The JSON responses of the progress route.  `progressByToken` is the JS
object keyed by token (later loop iterations overwrite earlier ones). -/
inductive ProgResponse where
  | invalidBody
  | ok (progressByToken : String → Option FishProgress)

end ProgressRoute

/-- Parsed content of a JSON db file on disk. -/
inductive FileVal where
  | feed (d : FeedRoute.FeedDb)
  | prog (d : ProgressRoute.ProgDb)

/-- The filesystem, as a map from path (relative to `process.cwd()`) to parsed
content. -/
def FS := String → Option FileVal

/-- `DB_PATH` of the feed route: `path.join(process.cwd(), "data", "betta-progress.json")`. -/
def feedDbPath : String := "data/betta-progress.json"

/-- `DB_PATH` of the progress route: `path.join(process.cwd(), "database-fish.json")`. -/
def progDbPath : String := "database-fish.json"

/-- `fs.writeFileSync` of a parsed value at a path. -/
def setFile (fs : FS) (p : String) (v : FileVal) : FS :=
  fun q => if q = p then some v else fs q

namespace FeedRoute

/-- `ensureDbFile` of the feed route: create `DB_PATH` holding `{}` if absent. -/
def ensureDbFile (fs : FS) : FS :=
  match fs feedDbPath with
  | some _ => fs
  | none => setFile fs feedDbPath (.feed emptyFeedDb)

/-- `loadDb` of the feed route (after `ensureDbFile`): parse `DB_PATH`, with
`{}` on parse failure. -/
def loadFeedDb (fs : FS) : FeedDb :=
  match fs feedDbPath with
  | some (.feed d) => d
  | _ => emptyFeedDb

/-- The full `POST` handler of `src/src/app/api/feed/route.ts` against the
filesystem: body validation (trimmed tokenId, lowercased walletAddress,
uppercased rarity membership), then `loadDb`, `feedCore` and `saveDb`. -/
def feedPOSTfs (fs : FS) (tokenIdRaw rarityRaw walletRaw : String) (now : Int) :
    FeedResponse × FS :=
  let tokenId := jsTrim tokenIdRaw
  let walletAddress := jsToLower walletRaw
  if tokenId = "" ∨ walletAddress = "" then (.missingParams, fs)
  else
    match parseRarity (jsToUpper rarityRaw) with
    | none => (.invalidRarity, fs)
    | some rarity =>
      let fs1 := ensureDbFile fs
      let db := loadFeedDb fs1
      let o := feedCore db tokenId rarity now
      match o.write with
      | some rec => (o.resp, setFile fs1 feedDbPath (.feed (setRec db tokenId rec)))
      | none => (o.resp, fs1)

/-- A sequence of feed-route requests `(tokenId, rarity, walletAddress, now)`
acting on the filesystem. -/
def runFeedsFS (fs : FS) (calls : List (String × String × String × Int)) : FS :=
  calls.foldl (fun f c => (feedPOSTfs f c.1 c.2.1 c.2.2.1 c.2.2.2).2) fs

end FeedRoute

namespace ProgressRoute

/-- `loadDb` of the progress route: parse `DB_PATH`, `{}` when missing
(`ENOENT`) or unreadable. -/
def loadProgDb (fs : FS) : ProgDb :=
  match fs progDbPath with
  | some (.prog d) => d
  | _ => emptyProgDb

/-- The accumulation `progressByToken[tokenKey] = {...}` over the request
list; later iterations overwrite earlier ones, as JS object assignment does. -/
def buildMap (db : ProgDb) (fishes : List (String × Rarity))
    (acc : String → Option FishProgress) : String → Option FishProgress :=
  fishes.foldl
    (fun acc f => fun k => if k = f.1 then some (entryFor db f.1 f.2) else acc k) acc

/-- The full `POST` handler of `src/src/app/api/progress/route.ts`: reject an
empty batch, otherwise report an entry per requested fish.  The route performs
no filesystem write. -/
def progressPOSTfs (fs : FS) (fishes : List (String × Rarity)) : ProgResponse × FS :=
  if fishes = [] then (.invalidBody, fs)
  else (.ok (buildMap (loadProgDb fs) fishes (fun _ => none)), fs)

end ProgressRoute

namespace Store

/-- `FishProgress` of `src/src/lib/fishProgressStore.ts`. -/
structure FishProgress where
  tokenId : String
  rarity : Rarity
  level : Int
  exp : Int
  lastFeedAt : Int
deriving DecidableEq, Repr

/-- The in-memory `progressStore` map.  `ensureLoaded`/`persistToDisk` move
this map from/to disk; the store's observable behaviour is a function of the
loaded map, which is the state modelled here. -/
def StoreMap := String → Option FishProgress

/-- The store before any record is created. -/
def emptyStore : StoreMap := fun _ => none

/-- The string each `Rarity` tag interpolates to. -/
def rarityString : Rarity → String
  | .COMMON => "COMMON"
  | .UNCOMMON => "UNCOMMON"
  | .RARE => "RARE"
  | .EPIC => "EPIC"
  | .LEGENDARY => "LEGENDARY"
  | .SPIRIT => "SPIRIT"

/-- `makeKey` of the store: the template literal `` `${tokenId}:${rarity}` ``. -/
def makeKey (tokenId : String) (rarity : Rarity) : String :=
  tokenId ++ ":" ++ rarityString rarity

/-- `getOrCreateProgress` of the store: return the record at `makeKey`, else
create, persist and return the default record. -/
def getOrCreateProgress (store : StoreMap) (tokenId : String) (rarity : Rarity) :
    FishProgress × StoreMap :=
  let key := makeKey tokenId rarity
  match store key with
  | some existing => (existing, store)
  | none =>
    let created : FishProgress := ⟨tokenId, rarity, 1, 0, 0⟩
    (created, fun k => if k = key then some created else store k)

/-- `saveProgress` of the store: upsert at the record's own key. -/
def saveProgress (store : StoreMap) (progress : FishProgress) : StoreMap :=
  fun k => if k = makeKey progress.tokenId progress.rarity then some progress else store k

end Store

/-- The level-up loop as the specification phrases it: while
`exp >= expNeeded(level)` and `level < maxLevel(rarity)`, subtract
`expNeeded(level)` from `exp` and increment `level`, with the same exact fuel. -/
def claimLevelLoopF (maxLevel : Int) : Nat → Int → Int → Int × Int
  | 0, level, exp => (level, exp)
  | n + 1, level, exp =>
    if expNeeded level ≤ exp ∧ level < maxLevel then
      claimLevelLoopF maxLevel n (level + 1) (exp - expNeeded level)
    else (level, exp)

/-- The specification's level-up loop, run with sufficient fuel. -/
def claimLevelLoop (maxLevel level exp : Int) : Int × Int :=
  claimLevelLoopF maxLevel (maxLevel - level).toNat level exp

/-- Every rarity's level cap is at least 15. -/
lemma fifteen_le_maxLevel (r : Rarity) : 15 ≤ MAX_LEVEL_BY_RARITY r := by
  cases r <;> decide

/-- The feed route's threshold agrees with the store/spec formula below cap. -/
lemma expNeededForLevel_eq_expNeeded (r : Rarity) (level : Int)
    (h1 : 1 ≤ level) (h2 : level < MAX_LEVEL_BY_RARITY r) :
    FeedRoute.expNeededForLevel r level = expNeeded level := by
  unfold FeedRoute.expNeededForLevel expNeeded
  rw [if_neg (by omega), if_neg (by omega)]

/-- The route's level-up loop coincides with the loop as the spec phrases it,
for levels at least 1 (where the threshold is positive). -/
lemma levelLoopF_eq_claim (r : Rarity) (n : Nat) :
    ∀ level exp : Int, 1 ≤ level →
      FeedRoute.levelLoopF r n level exp =
        claimLevelLoopF (MAX_LEVEL_BY_RARITY r) n level exp := by
  induction n with
  | zero => intro level exp _; rfl
  | succ n ih =>
    intro level exp h
    simp only [FeedRoute.levelLoopF, claimLevelLoopF]
    by_cases hlt : level < MAX_LEVEL_BY_RARITY r
    · have hne := expNeededForLevel_eq_expNeeded r level h hlt
      have hpos : 0 < expNeeded level := by unfold expNeeded; rw [if_neg (by omega)]; omega
      rw [hne]
      by_cases hc : expNeeded level ≤ exp
      · rw [if_pos ⟨hpos, hc, hlt⟩, if_pos ⟨hc, hlt⟩]
        exact ih (level + 1) (exp - expNeeded level) (by omega)
      · rw [if_neg (by tauto), if_neg (by tauto)]
    · rw [if_neg (by tauto), if_neg (by tauto)]

/-- The spec's loop never exceeds the cap. -/
lemma claimLevelLoopF_le_max (M : Int) (n : Nat) :
    ∀ level exp : Int, level ≤ M → (claimLevelLoopF M n level exp).1 ≤ M := by
  induction n with
  | zero => intro level exp h; exact h
  | succ n ih =>
    intro level exp h
    simp only [claimLevelLoopF]
    by_cases hc : expNeeded level ≤ exp ∧ level < M
    · rw [if_pos hc]; exact ih (level + 1) (exp - expNeeded level) (by omega)
    · rw [if_neg hc]; exact h

/-- C1: a feed call against a record with `lastFedAt > 0` and
`now - lastFedAt < FEED_COOLDOWN_MS` fails with the on-cooldown error carrying
`remainingMs = FEED_COOLDOWN_MS - (now - lastFedAt)`, and writes nothing, so
the stored record's level, exp and last-feed time are unchanged. -/
theorem feed_cooldown_rejects_and_preserves
    (db : FeedRoute.FeedDb) (key : String) (rarity : Rarity) (now : Int)
    (rec : FeedRoute.DbRecord) (hdb : db key = some rec)
    (hpos : 0 < rec.lastFedAt)
    (hcd : now - rec.lastFedAt < FeedRoute.FEED_COOLDOWN_MS) :
    FeedRoute.feedCore db key rarity now =
      ⟨.onCooldown (FeedRoute.FEED_COOLDOWN_MS - (now - rec.lastFedAt)) rec.level rec.exp
          (FeedRoute.expNeededForLevel rarity rec.level)
          (decide (MAX_LEVEL_BY_RARITY rarity ≤ rec.level) ||
            decide (FeedRoute.expNeededForLevel rarity rec.level = 0)),
        none⟩ := by
  simp only [FeedRoute.feedCore, hdb]
  rw [if_pos ⟨by omega, hcd⟩]

/-- Concrete db holding one record, for the C1 witness. -/
def cexDb1 : FeedRoute.FeedDb := FeedRoute.setRec FeedRoute.emptyFeedDb "1" ⟨2, 30, 1000⟩

/-- C1 witness at a concrete record and call time. -/
theorem feed_cooldown_rejects_and_preserves_w :
    FeedRoute.feedCore cexDb1 "1" Rarity.COMMON 1500 =
      ⟨.onCooldown 1799500 2 30 140 false, none⟩ := by
  have h := feed_cooldown_rejects_and_preserves cexDb1 "1" Rarity.COMMON 1500
    ⟨2, 30, 1000⟩ (by decide) (by decide) (by decide)
  rw [h]
  decide

/-- C4: feeding a record already at or above its rarity's cap, off cooldown,
writes back the same level and exp with `lastFedAt = now`, and reports
`isMax = true` with `expNeededNext = 0`. -/
theorem feed_at_max_level_refreshes_only
    (db : FeedRoute.FeedDb) (key : String) (rarity : Rarity) (now : Int)
    (rec : FeedRoute.DbRecord) (hdb : db key = some rec)
    (hmax : MAX_LEVEL_BY_RARITY rarity ≤ rec.level)
    (hcd : rec.lastFedAt = 0 ∨ FeedRoute.FEED_COOLDOWN_MS ≤ now - rec.lastFedAt) :
    FeedRoute.feedCore db key rarity now =
      ⟨.ok rec.level rec.exp 0 true FeedRoute.FEED_COOLDOWN_MS,
        some ⟨rec.level, rec.exp, now⟩⟩ := by
  have hnc : ¬(rec.lastFedAt ≠ 0 ∧ now - rec.lastFedAt < FeedRoute.FEED_COOLDOWN_MS) := by
    rcases hcd with h | h
    · simp [h]
    · omega
  simp only [FeedRoute.feedCore, hdb]
  rw [if_neg hnc]
  unfold FeedRoute.feedGrow
  rw [if_pos hmax]

/-- Concrete db holding one max-level record, for the C4 witness. -/
def cexDb4 : FeedRoute.FeedDb := FeedRoute.setRec FeedRoute.emptyFeedDb "9" ⟨15, 0, 0⟩

/-- C4 witness at a concrete max-level record. -/
theorem feed_at_max_level_refreshes_only_w :
    FeedRoute.feedCore cexDb4 "9" Rarity.COMMON 99 =
      ⟨.ok 15 0 0 true FeedRoute.FEED_COOLDOWN_MS, some ⟨15, 0, 99⟩⟩ :=
  feed_at_max_level_refreshes_only cexDb4 "9" Rarity.COMMON 99 ⟨15, 0, 0⟩
    (by decide) (by decide) (Or.inl (by decide))

/-- C2: feeding a record below its cap, off cooldown, stores exactly the
result of adding `EXP_PER_FEED` and running the spec's level-up loop, with exp
clamped to 0 exactly when the loop reaches the rarity's cap. -/
theorem feed_exp_gain_levelup_clamp
    (db : FeedRoute.FeedDb) (key : String) (rarity : Rarity) (now : Int)
    (rec : FeedRoute.DbRecord) (hdb : db key = some rec)
    (h1 : 1 ≤ rec.level) (h2 : rec.level < MAX_LEVEL_BY_RARITY rarity)
    (hcd : rec.lastFedAt = 0 ∨ FeedRoute.FEED_COOLDOWN_MS ≤ now - rec.lastFedAt) :
    (FeedRoute.feedCore db key rarity now).write =
      some ⟨(claimLevelLoop (MAX_LEVEL_BY_RARITY rarity) rec.level
               (rec.exp + FeedRoute.EXP_PER_FEED)).1,
            if (claimLevelLoop (MAX_LEVEL_BY_RARITY rarity) rec.level
                 (rec.exp + FeedRoute.EXP_PER_FEED)).1 = MAX_LEVEL_BY_RARITY rarity
            then 0
            else (claimLevelLoop (MAX_LEVEL_BY_RARITY rarity) rec.level
                   (rec.exp + FeedRoute.EXP_PER_FEED)).2,
            now⟩ := by
  have hnc : ¬(rec.lastFedAt ≠ 0 ∧ now - rec.lastFedAt < FeedRoute.FEED_COOLDOWN_MS) := by
    rcases hcd with h | h
    · simp [h]
    · omega
  have hloop : FeedRoute.levelLoop rarity rec.level (rec.exp + FeedRoute.EXP_PER_FEED) =
      claimLevelLoop (MAX_LEVEL_BY_RARITY rarity) rec.level
        (rec.exp + FeedRoute.EXP_PER_FEED) :=
    levelLoopF_eq_claim rarity _ rec.level _ h1
  have hle : (claimLevelLoop (MAX_LEVEL_BY_RARITY rarity) rec.level
      (rec.exp + FeedRoute.EXP_PER_FEED)).1 ≤ MAX_LEVEL_BY_RARITY rarity :=
    claimLevelLoopF_le_max _ _ rec.level _ (by omega)
  simp only [FeedRoute.feedCore, hdb]
  rw [if_neg hnc]
  unfold FeedRoute.feedGrow
  rw [if_neg (by omega)]
  simp only [hloop]
  by_cases hm : MAX_LEVEL_BY_RARITY rarity ≤
      (claimLevelLoop (MAX_LEVEL_BY_RARITY rarity) rec.level
        (rec.exp + FeedRoute.EXP_PER_FEED)).1
  · rw [if_pos hm, if_pos (by omega)]
    have hEq : (claimLevelLoop (MAX_LEVEL_BY_RARITY rarity) rec.level
        (rec.exp + FeedRoute.EXP_PER_FEED)).1 = MAX_LEVEL_BY_RARITY rarity := by omega
    rw [hEq]
  · rw [if_neg hm, if_neg (by omega)]

/-- Concrete db with a record 230 exp short of nothing, for the C2 witness: a
single feed advances two levels at once. -/
def cexDb2 : FeedRoute.FeedDb := FeedRoute.setRec FeedRoute.emptyFeedDb "3" ⟨1, 230, 0⟩

/-- C2 witness: one feed of a level-1 record with 230 exp advances it two
levels (100 then 140 thresholds) leaving 10 residual exp. -/
theorem feed_exp_gain_levelup_clamp_w :
    (FeedRoute.feedCore cexDb2 "3" Rarity.COMMON 5).write = some ⟨3, 10, 5⟩ := by
  have h := feed_exp_gain_levelup_clamp cexDb2 "3" Rarity.COMMON 5 ⟨1, 230, 0⟩
    (by decide) (by decide) (by decide) (Or.inl (by decide))
  rw [h]
  decide

/-- The per-record data-model invariant of the spec, stated against a given
rarity: `level ∈ [1, maxLevel(rarity)]`, `exp ∈ [0, expNeeded(level))`, and
`exp = 0` at the cap. -/
def feedInvariant (r : Rarity) (rec : FeedRoute.DbRecord) : Prop :=
  1 ≤ rec.level ∧ rec.level ≤ MAX_LEVEL_BY_RARITY r ∧
    0 ≤ rec.exp ∧ rec.exp < expNeeded rec.level ∧
    (rec.level = MAX_LEVEL_BY_RARITY r → rec.exp = 0)

instance (r : Rarity) (rec : FeedRoute.DbRecord) : Decidable (feedInvariant r rec) := by
  unfold feedInvariant
  infer_instance

/-- The rarity supplied by the last feed call mentioning a token. -/
def lastRarityFor (calls : List (String × Rarity × Int)) (t : String) : Option Rarity :=
  ((calls.filter (fun c => c.1 = t)).getLast?).map (fun c => c.2.1)

/-- The spec's experience threshold is positive from level 1 up. -/
lemma expNeeded_pos (l : Int) (hl : 1 ≤ l) : 0 < expNeeded l := by
  unfold expNeeded
  rw [if_neg (by omega)]
  omega

/-- The route's level-up loop preserves the record bounds: the final level
stays in `[level, maxLevel]`, exp stays nonnegative, and below the cap the
final exp is below its level's threshold. -/
lemma levelLoopF_inv (r : Rarity) (n : Nat) :
    ∀ level exp : Int, 1 ≤ level → level ≤ MAX_LEVEL_BY_RARITY r → 0 ≤ exp →
      (MAX_LEVEL_BY_RARITY r - level).toNat ≤ n →
      1 ≤ (FeedRoute.levelLoopF r n level exp).1 ∧
      (FeedRoute.levelLoopF r n level exp).1 ≤ MAX_LEVEL_BY_RARITY r ∧
      0 ≤ (FeedRoute.levelLoopF r n level exp).2 ∧
      ((FeedRoute.levelLoopF r n level exp).1 < MAX_LEVEL_BY_RARITY r →
        (FeedRoute.levelLoopF r n level exp).2 <
          expNeeded (FeedRoute.levelLoopF r n level exp).1) := by
  induction n with
  | zero =>
    intro level exp h1 hM he hf
    have hlM : MAX_LEVEL_BY_RARITY r ≤ level := by omega
    simp only [FeedRoute.levelLoopF]
    exact ⟨h1, hM, he, fun hlt => absurd (show level < _ from hlt) (by omega)⟩
  | succ n ih =>
    intro level exp h1 hM he hf
    simp only [FeedRoute.levelLoopF]
    by_cases hc : 0 < FeedRoute.expNeededForLevel r level ∧
        FeedRoute.expNeededForLevel r level ≤ exp ∧ level < MAX_LEVEL_BY_RARITY r
    · rw [if_pos hc]
      exact ih (level + 1) (exp - FeedRoute.expNeededForLevel r level)
        (by omega) (by omega) (by omega) (by omega)
    · rw [if_neg hc]
      refine ⟨h1, hM, he, fun hlt => ?_⟩
      have hlt2 : level < MAX_LEVEL_BY_RARITY r := hlt
      show exp < expNeeded level
      have hne := expNeededForLevel_eq_expNeeded r level h1 hlt2
      have hpos := expNeeded_pos level h1
      have hposF : 0 < FeedRoute.expNeededForLevel r level := by rw [hne]; exact hpos
      have hnle : ¬ FeedRoute.expNeededForLevel r level ≤ exp :=
        fun hge => hc ⟨hposF, hge, hlt2⟩
      omega

/-- The exp-gain/level-up tail of the feed route writes only records that
satisfy the data-model invariant, provided the cap-implies-zero-exp fact held
before the call. -/
lemma feedGrow_inv (r : Rarity) (level0 exp0 now : Int)
    (h1 : 1 ≤ level0) (hM : level0 ≤ MAX_LEVEL_BY_RARITY r) (he : 0 ≤ exp0)
    (hmax0 : level0 = MAX_LEVEL_BY_RARITY r → exp0 = 0) :
    ∀ rec, (FeedRoute.feedGrow r level0 exp0 now).write = some rec →
      feedInvariant r rec := by
  intro rec hw
  have h15 := fifteen_le_maxLevel r
  unfold FeedRoute.feedGrow FeedRoute.levelLoop at hw
  by_cases hm : MAX_LEVEL_BY_RARITY r ≤ level0
  · rw [if_pos hm] at hw
    simp only [Option.some.injEq] at hw
    subst hw
    have he0 := hmax0 (by omega)
    have hpos := expNeeded_pos level0 h1
    have hA : 0 ≤ exp0 := by omega
    have hB : exp0 < expNeeded level0 := by omega
    unfold feedInvariant
    exact ⟨h1, hM, hA, hB, fun _ => he0⟩
  · rw [if_neg hm] at hw
    have hloop := levelLoopF_inv r (MAX_LEVEL_BY_RARITY r - level0).toNat level0
      (exp0 + FeedRoute.EXP_PER_FEED) h1 hM
      (by unfold FeedRoute.EXP_PER_FEED; omega) (le_refl _)
    by_cases hm2 : MAX_LEVEL_BY_RARITY r ≤
        (FeedRoute.levelLoopF r (MAX_LEVEL_BY_RARITY r - level0).toNat level0
          (exp0 + FeedRoute.EXP_PER_FEED)).1
    · rw [if_pos hm2] at hw
      simp only [Option.some.injEq] at hw
      subst hw
      have hpos := expNeeded_pos (MAX_LEVEL_BY_RARITY r) (by omega)
      have hA : (1 : Int) ≤ MAX_LEVEL_BY_RARITY r := by omega
      have hB : (0 : Int) < expNeeded (MAX_LEVEL_BY_RARITY r) := hpos
      unfold feedInvariant
      exact ⟨hA, le_refl _, le_refl _, hB, fun _ => rfl⟩
    · rw [if_neg hm2] at hw
      simp only [Option.some.injEq] at hw
      subst hw
      have hlt := hloop.2.2.2 (by omega)
      have hne : (FeedRoute.levelLoopF r (MAX_LEVEL_BY_RARITY r - level0).toNat level0
          (exp0 + FeedRoute.EXP_PER_FEED)).1 ≠ MAX_LEVEL_BY_RARITY r := by omega
      unfold feedInvariant
      exact ⟨hloop.1, hloop.2.1, hloop.2.2.1, hlt, fun heq => absurd heq hne⟩

/-- The feed route's core writes only invariant-satisfying records when the
record it read (if any) satisfied the invariant. -/
lemma feedCore_writes_inv (r : Rarity) (db : FeedRoute.FeedDb) (key : String) (now : Int)
    (hInv : ∀ rec, db key = some rec → feedInvariant r rec) :
    ∀ rec, (FeedRoute.feedCore db key r now).write = some rec → feedInvariant r rec := by
  intro rec hw
  have h15 := fifteen_le_maxLevel r
  rcases hdb : db key with _ | old
  · simp only [FeedRoute.feedCore, hdb] at hw
    exact feedGrow_inv r 1 0 now (by omega) (by omega) (by omega) (by omega) rec hw
  · simp only [FeedRoute.feedCore, hdb] at hw
    by_cases hcd : old.lastFedAt ≠ 0 ∧ now - old.lastFedAt < FeedRoute.FEED_COOLDOWN_MS
    · rw [if_pos hcd] at hw
      exact absurd hw (by simp)
    · rw [if_neg hcd] at hw
      have hi := hInv old hdb
      exact feedGrow_inv r old.level old.exp now hi.1 hi.2.1 hi.2.2.1 hi.2.2.2.2 rec hw

/-- One feed call preserves the per-token invariant at `t`, when the call's
rarity agrees with `t`'s fixed rarity. -/
lemma feedStep_inv (r : Rarity) (t : String) (db : FeedRoute.FeedDb)
    (hInv : ∀ rec, db t = some rec → feedInvariant r rec)
    (c : String × Rarity × Int) (hc : c.1 = t → c.2.1 = r) :
    ∀ rec, FeedRoute.feedStep db c t = some rec → feedInvariant r rec := by
  intro rec hrec
  unfold FeedRoute.feedStep FeedRoute.feedApply at hrec
  by_cases hkey : c.1 = t
  · subst hkey
    rw [hc rfl] at hrec
    rcases hw : (FeedRoute.feedCore db c.1 r c.2.2).write with _ | w
    · rw [hw] at hrec
      exact hInv rec hrec
    · rw [hw] at hrec
      have h : w = rec := by simpa [FeedRoute.setRec] using hrec
      subst h
      exact feedCore_writes_inv r db c.1 c.2.2 hInv w hw
  · rcases hw : (FeedRoute.feedCore db c.1 c.2.1 c.2.2).write with _ | w
    · rw [hw] at hrec
      exact hInv rec hrec
    · rw [hw] at hrec
      simp only [FeedRoute.setRec] at hrec
      rw [if_neg (by intro h; exact hkey h.symm)] at hrec
      exact hInv rec hrec

/-- Folding feed calls preserves the per-token invariant at `t`, when every
call for `t` carries the same rarity `r`. -/
lemma runFeeds_inv (r : Rarity) (t : String) :
    ∀ (calls : List (String × Rarity × Int)) (db : FeedRoute.FeedDb),
      (∀ rec, db t = some rec → feedInvariant r rec) →
      (∀ c ∈ calls, c.1 = t → c.2.1 = r) →
      ∀ rec, FeedRoute.runFeeds db calls t = some rec → feedInvariant r rec := by
  intro calls
  induction calls with
  | nil => intro db h _; exact h
  | cons c rest ih =>
    intro db h hc
    exact ih (FeedRoute.feedStep db c)
      (feedStep_inv r t db h c (hc c (List.mem_cons_self c rest)))
      (fun c' hm => hc c' (List.mem_cons_of_mem c hm))

/-- The concrete feed trace refuting C5: token "1" is fed to the COMMON cap
(252 feeds of 20 exp, total 5040, reaching level 15 with exp 0), then once as
LEGENDARY (below that cap, so exp grows to 20), then once more as COMMON (the
max-level branch saves level 15 with exp 20 untouched). -/
def cex5Calls : List (String × Rarity × Int) :=
  ((List.range 252).map
    (fun i => ("1", Rarity.COMMON, ((i : Int) + 1) * FeedRoute.FEED_COOLDOWN_MS)))
    ++ [("1", Rarity.LEGENDARY, 253 * FeedRoute.FEED_COOLDOWN_MS),
        ("1", Rarity.COMMON, 254 * FeedRoute.FEED_COOLDOWN_MS)]

set_option maxRecDepth 100000 in
/-- C5 counterexample: with caller-supplied rarity varying per call, a
reachable store holds a record at COMMON's cap with nonzero exp, refuting the
claimed invariant relative to the rarity of the token's last call. -/
theorem feed_store_invariant_mixed_rarity_refuted :
    ¬ (∀ (calls : List (String × Rarity × Int)) (t : String)
        (rec : FeedRoute.DbRecord) (r : Rarity),
        FeedRoute.runFeeds FeedRoute.emptyFeedDb calls t = some rec →
        lastRarityFor calls t = some r →
        feedInvariant r rec) := by
  intro h
  have h1 : FeedRoute.runFeeds FeedRoute.emptyFeedDb cex5Calls "1" =
      some ⟨15, 20, 254 * FeedRoute.FEED_COOLDOWN_MS⟩ := by decide
  have h2 : lastRarityFor cex5Calls "1" = some Rarity.COMMON := by decide
  exact absurd (h cex5Calls "1" ⟨15, 20, 254 * FeedRoute.FEED_COOLDOWN_MS⟩
    Rarity.COMMON h1 h2) (by decide)

/-- C5 amended: starting from the empty store, when all feed calls for a given
token supply one fixed rarity, every persisted record for that token satisfies
`1 ≤ level ≤ maxLevel(rarity)`, `0 ≤ exp < expNeeded(level)`, and `exp = 0` at
the cap. -/
theorem feed_store_invariant_fixed_rarity
    (calls : List (String × Rarity × Int)) (t : String) (r : Rarity)
    (hfix : ∀ c ∈ calls, c.1 = t → c.2.1 = r)
    (rec : FeedRoute.DbRecord)
    (hrun : FeedRoute.runFeeds FeedRoute.emptyFeedDb calls t = some rec) :
    feedInvariant r rec :=
  runFeeds_inv r t calls FeedRoute.emptyFeedDb
    (fun rec h => absurd h (by simp [FeedRoute.emptyFeedDb])) hfix rec hrun

/-- C5 amended witness: one concrete COMMON feed from the empty store yields a
record satisfying the invariant. -/
theorem feed_store_invariant_fixed_rarity_w :
    feedInvariant Rarity.COMMON ⟨1, 20, 10⟩ :=
  feed_store_invariant_fixed_rarity [("1", Rarity.COMMON, 10)] "1" Rarity.COMMON
    (by decide) ⟨1, 20, 10⟩ (by decide)

/-- C6 counterexample: the feed route uppercases the request's rarity before
the membership check, so the request rarity "common" — which is not one of the
six enumeration tags — is not rejected: the call proceeds into the store. -/
theorem feed_unknown_rarity_claim_refuted :
    ¬ (∀ (fs : FS) (tokenIdRaw rarityRaw walletRaw : String) (now : Int),
        parseRarity rarityRaw = none →
        FeedRoute.feedPOSTfs fs tokenIdRaw rarityRaw walletRaw now =
          (.invalidRarity, fs)) := by
  intro h
  have hres := congrArg Prod.fst
    (h (fun _ => none) "1" "common" "0xab" 0 (by decide))
  exact absurd hres (by decide)

/-- C6 amended: a request whose rarity does not match one of the six tags
after uppercasing is rejected with `INVALID_RARITY` and the filesystem is
untouched — the store is never read, written, or defaulted. -/
theorem feed_unknown_rarity_rejected
    (fs : FS) (tokenIdRaw rarityRaw walletRaw : String) (now : Int)
    (ht : jsTrim tokenIdRaw ≠ "") (hw : jsToLower walletRaw ≠ "")
    (hr : parseRarity (jsToUpper rarityRaw) = none) :
    FeedRoute.feedPOSTfs fs tokenIdRaw rarityRaw walletRaw now =
      (.invalidRarity, fs) := by
  unfold FeedRoute.feedPOSTfs
  rw [if_neg (by tauto), hr]

/-- C6 amended witness at rarity "DRAGON". -/
theorem feed_unknown_rarity_rejected_w :
    FeedRoute.feedPOSTfs (fun _ => none) "1" "DRAGON" "0xab" 0 =
      (.invalidRarity, fun _ => none) :=
  feed_unknown_rarity_rejected (fun _ => none) "1" "DRAGON" "0xab" 0
    (by decide) (by decide) (by decide)

/-- The six rarity tag strings are pairwise distinct. -/
lemma rarityString_inj : ∀ r1 r2 : Rarity,
    Store.rarityString r1 = Store.rarityString r2 → r1 = r2 := by
  intro r1 r2 h
  cases r1 <;> cases r2 <;> first | rfl | exact absurd h (by decide)

/-- Composite keys for the same token and different rarities are distinct. -/
lemma makeKey_rarity_ne (t : String) {r1 r2 : Rarity} (h : r1 ≠ r2) :
    Store.makeKey t r1 ≠ Store.makeKey t r2 := by
  intro he
  apply h
  apply rarityString_inj
  have hd := congrArg String.data he
  simp only [Store.makeKey, String.data_append, List.append_assoc] at hd
  exact String.ext (List.append_cancel_left (List.append_cancel_left hd))

/-- Concrete one-record store for the C7 counterexample and witness. -/
def cex7Store : Store.StoreMap :=
  fun k => if k = "7:COMMON" then some ⟨"7", Rarity.COMMON, 3, 50, 123⟩ else none

/-- C7 counterexample: the store keys records by `tokenId:rarity`, so calling
it with a different rarity returns a fresh default record instead of the
stored record with its rarity overwritten (and forks storage for the token). -/
theorem store_rarity_overwrite_refuted :
    ¬ (∀ (store : Store.StoreMap) (t : String) (r1 r2 : Rarity)
        (p : Store.FishProgress),
        store (Store.makeKey t r1) = some p → p.tokenId = t → p.rarity = r1 →
        r1 ≠ r2 →
        (Store.getOrCreateProgress store t r2).1 = { p with rarity := r2 } ∧
        (∀ k1 k2 rec1 rec2,
          (Store.getOrCreateProgress store t r2).2 k1 = some rec1 →
          (Store.getOrCreateProgress store t r2).2 k2 = some rec2 →
          rec1.tokenId = t → rec2.tokenId = t → rec1 = rec2)) := by
  intro h
  obtain ⟨h1, h2⟩ := h cex7Store "7" Rarity.COMMON Rarity.RARE
    ⟨"7", Rarity.COMMON, 3, 50, 123⟩ (by decide) rfl rfl (by decide)
  exact absurd h1 (by decide)

/-- C7 amended: calling the store for a token under a different rarity leaves
the existing record (and its rarity) untouched and creates, persists and
returns a second, separate default record under the composite key
`tokenId:rarity`. -/
theorem store_distinct_rarity_creates_separate_record
    (store : Store.StoreMap) (t : String) (r1 r2 : Rarity) (p : Store.FishProgress)
    (hne : r1 ≠ r2)
    (h1 : store (Store.makeKey t r1) = some p)
    (h2 : store (Store.makeKey t r2) = none) :
    (Store.getOrCreateProgress store t r2).1 = ⟨t, r2, 1, 0, 0⟩ ∧
    (Store.getOrCreateProgress store t r2).2 (Store.makeKey t r2) =
      some ⟨t, r2, 1, 0, 0⟩ ∧
    (Store.getOrCreateProgress store t r2).2 (Store.makeKey t r1) = some p ∧
    (∀ k, k ≠ Store.makeKey t r2 →
      (Store.getOrCreateProgress store t r2).2 k = store k) := by
  have hkey : Store.makeKey t r1 ≠ Store.makeKey t r2 := makeKey_rarity_ne t hne
  refine ⟨?_, ?_, ?_, ?_⟩
  · simp [Store.getOrCreateProgress, h2]
  · simp [Store.getOrCreateProgress, h2]
  · simp [Store.getOrCreateProgress, h2, hkey, h1]
  · intro k hk
    simp [Store.getOrCreateProgress, h2, hk]

/-- C7 amended witness: creating under RARE leaves the COMMON record intact
and stores a fresh default at the RARE composite key. -/
theorem store_distinct_rarity_creates_separate_record_w :
    (Store.getOrCreateProgress cex7Store "7" Rarity.RARE).1 =
      ⟨"7", Rarity.RARE, 1, 0, 0⟩ ∧
    (Store.getOrCreateProgress cex7Store "7" Rarity.RARE).2 (Store.makeKey "7" Rarity.RARE) =
      some ⟨"7", Rarity.RARE, 1, 0, 0⟩ ∧
    (Store.getOrCreateProgress cex7Store "7" Rarity.RARE).2 (Store.makeKey "7" Rarity.COMMON) =
      some ⟨"7", Rarity.COMMON, 3, 50, 123⟩ := by
  have h := store_distinct_rarity_creates_separate_record cex7Store "7"
    Rarity.COMMON Rarity.RARE ⟨"7", Rarity.COMMON, 3, 50, 123⟩
    (by decide) (by decide) (by decide)
  exact ⟨h.1, h.2.1, h.2.2.1⟩

/-- C9: `getOrCreateProgress` returns a stored record unchanged without
touching the store, otherwise creates, persists and returns the default record
`{level 1, exp 0, lastFeedAt 0, rarity}`; two consecutive calls with the same
arguments return the same record and the same store. -/
theorem getOrCreateProgress_spec :
    (∀ (store : Store.StoreMap) (t : String) (r : Rarity) (p : Store.FishProgress),
      store (Store.makeKey t r) = some p →
        Store.getOrCreateProgress store t r = (p, store)) ∧
    (∀ (store : Store.StoreMap) (t : String) (r : Rarity),
      store (Store.makeKey t r) = none →
        Store.getOrCreateProgress store t r =
          (⟨t, r, 1, 0, 0⟩,
            fun k => if k = Store.makeKey t r then some ⟨t, r, 1, 0, 0⟩ else store k)) ∧
    (∀ (store : Store.StoreMap) (t : String) (r : Rarity),
      (Store.getOrCreateProgress ((Store.getOrCreateProgress store t r).2) t r).1 =
        (Store.getOrCreateProgress store t r).1 ∧
      (Store.getOrCreateProgress ((Store.getOrCreateProgress store t r).2) t r).2 =
        (Store.getOrCreateProgress store t r).2) := by
  refine ⟨?_, ?_, ?_⟩
  · intro store t r p h
    simp only [Store.getOrCreateProgress, h]
  · intro store t r h
    simp only [Store.getOrCreateProgress, h]
  · intro store t r
    rcases h : store (Store.makeKey t r) with _ | p
    · constructor <;> simp [Store.getOrCreateProgress, h]
    · constructor <;> simp [Store.getOrCreateProgress, h]

/-- C9 witness: from the empty store, a second identical call returns the same
record and leaves the store identical. -/
theorem getOrCreateProgress_spec_w :
    (Store.getOrCreateProgress
        ((Store.getOrCreateProgress Store.emptyStore "7" Rarity.COMMON).2) "7" Rarity.COMMON).1 =
      (Store.getOrCreateProgress Store.emptyStore "7" Rarity.COMMON).1 ∧
    (Store.getOrCreateProgress Store.emptyStore "7" Rarity.COMMON).1 =
      ⟨"7", Rarity.COMMON, 1, 0, 0⟩ :=
  ⟨(getOrCreateProgress_spec.2.2 Store.emptyStore "7" Rarity.COMMON).1, by decide⟩

/-- Unfolding one request from the progress accumulation. -/
lemma buildMap_cons (db : ProgressRoute.ProgDb) (f : String × Rarity)
    (rest : List (String × Rarity)) (acc : String → Option ProgressRoute.FishProgress) :
    ProgressRoute.buildMap db (f :: rest) acc =
      ProgressRoute.buildMap db rest
        (fun k => if k = f.1 then some (ProgressRoute.entryFor db f.1 f.2) else acc k) :=
  rfl

/-- A token absent from the batch keeps the accumulator's value. -/
lemma buildMap_not_mem (db : ProgressRoute.ProgDb) (t : String) :
    ∀ (fishes : List (String × Rarity)) (acc : String → Option ProgressRoute.FishProgress),
      t ∉ fishes.map Prod.fst → ProgressRoute.buildMap db fishes acc t = acc t := by
  intro fishes
  induction fishes with
  | nil => intro acc _; rfl
  | cons f rest ih =>
    intro acc hmem
    have h2 : t ≠ f.1 := fun h => hmem (by rw [List.map_cons, h]; exact List.mem_cons_self _ _)
    have h1 : t ∉ rest.map Prod.fst :=
      fun h => hmem (by rw [List.map_cons]; exact List.mem_cons_of_mem _ h)
    rw [buildMap_cons, ih _ h1]
    show (if t = f.1 then _ else acc t) = acc t
    rw [if_neg h2]

/-- A token whose every occurrence in the batch yields the same entry is
reported with that entry. -/
lemma buildMap_mem (db : ProgressRoute.ProgDb) (t : String)
    (e : ProgressRoute.FishProgress) :
    ∀ (fishes : List (String × Rarity)) (acc : String → Option ProgressRoute.FishProgress),
      (∀ f ∈ fishes, f.1 = t → ProgressRoute.entryFor db t f.2 = e) →
      t ∈ fishes.map Prod.fst →
      ProgressRoute.buildMap db fishes acc t = some e := by
  intro fishes
  induction fishes with
  | nil => intro acc _ hmem; cases hmem
  | cons f rest ih =>
    intro acc huni hmem
    by_cases hr : t ∈ rest.map Prod.fst
    · rw [buildMap_cons]
      exact ih _ (fun g hg => huni g (List.mem_cons_of_mem _ hg)) hr
    · have hf : f.1 = t := by
        rw [List.map_cons] at hmem
        rcases List.mem_cons.mp hmem with h | h
        · exact h.symm
        · exact absurd h hr
      rw [buildMap_cons, buildMap_not_mem db t rest _ hr]
      show (if t = f.1 then some (ProgressRoute.entryFor db f.1 f.2) else acc t) = some e
      rw [if_pos hf.symm, hf]
      exact congrArg some (huni f (List.mem_cons_self f rest) hf)

/-- A token the loaded db does not know is reported as the implicit default. -/
lemma entryFor_default (db : ProgressRoute.ProgDb) (t : String) (r : Rarity)
    (hdb : db t = none) : ProgressRoute.entryFor db t r = ⟨1, 0, 100, false⟩ := by
  unfold ProgressRoute.entryFor
  rw [hdb]
  cases r <;> decide

/-- C8: a batch progress query containing a token with no stored record
reports `{level 1, exp 0, expNeededNext expNeeded(1), isMax false}` for that
token, and the query writes nothing. -/
theorem progress_unstored_token_default
    (fs : FS) (fishes : List (String × Rarity)) (t : String) (r : Rarity)
    (hmem : (t, r) ∈ fishes)
    (hnone : ProgressRoute.loadProgDb fs t = none) :
    (∃ m, (ProgressRoute.progressPOSTfs fs fishes).1 = .ok m ∧
        m t = some ⟨1, 0, expNeeded 1, false⟩) ∧
    (ProgressRoute.progressPOSTfs fs fishes).2 = fs := by
  have hne : fishes ≠ [] := List.ne_nil_of_mem hmem
  constructor
  · refine ⟨ProgressRoute.buildMap (ProgressRoute.loadProgDb fs) fishes (fun _ => none),
      ?_, ?_⟩
    · unfold ProgressRoute.progressPOSTfs
      rw [if_neg hne]
    · have h100 : expNeeded 1 = 100 := by decide
      rw [h100]
      refine buildMap_mem _ t ⟨1, 0, 100, false⟩ fishes _ ?_ ?_
      · intro f _ _
        exact entryFor_default _ t f.2 hnone
      · exact List.mem_map.mpr ⟨(t, r), hmem, rfl⟩
  · unfold ProgressRoute.progressPOSTfs
    by_cases h : fishes = []
    · rw [if_pos h]
    · rw [if_neg h]

/-- C8 witness: a never-fed token queried against the empty filesystem. -/
theorem progress_unstored_token_default_w :
    (∃ m, (ProgressRoute.progressPOSTfs (fun _ => none) [("1", Rarity.COMMON)]).1 = .ok m ∧
        m "1" = some ⟨1, 0, expNeeded 1, false⟩) ∧
    (ProgressRoute.progressPOSTfs (fun _ => none) [("1", Rarity.COMMON)]).2 =
      (fun _ => none : FS) :=
  progress_unstored_token_default (fun _ => none) [("1", Rarity.COMMON)] "1" Rarity.COMMON
    (by decide) rfl

/-- The progress route's threshold, written out, below the cap. -/
lemma prog_expNeededForLevel_val (r : Rarity) (L : Int)
    (h1 : 1 ≤ L) (h2 : L < MAX_LEVEL_BY_RARITY r) :
    ProgressRoute.expNeededForLevel r L = 100 + (L - 1) * 40 := by
  unfold ProgressRoute.expNeededForLevel
  rw [if_neg (by omega), min_eq_left (by omega), max_eq_right h1]

/-- The reported-entry invariants, against arbitrary base level and exp. -/
lemma entryCore_inv (r : Rarity) (b x : Int) :
    1 ≤ (ProgressRoute.entryCore r b x).level ∧
    (ProgressRoute.entryCore r b x).level ≤ MAX_LEVEL_BY_RARITY r ∧
    ((ProgressRoute.entryCore r b x).isMax = true →
      (ProgressRoute.entryCore r b x).exp = 0 ∧
      (ProgressRoute.entryCore r b x).expNeededNext = 0) ∧
    ((ProgressRoute.entryCore r b x).isMax = false →
      (ProgressRoute.entryCore r b x).exp < (ProgressRoute.entryCore r b x).expNeededNext) ∧
    ((ProgressRoute.entryCore r b x).isMax = false →
      (ProgressRoute.entryCore r b x).expNeededNext ≤ x →
      (ProgressRoute.entryCore r b x).exp =
        (ProgressRoute.entryCore r b x).expNeededNext - 1) := by
  have h15 := fifteen_le_maxLevel r
  have hL1 : 1 ≤ max 1 (min b (MAX_LEVEL_BY_RARITY r)) := le_max_left _ _
  have hLM : max 1 (min b (MAX_LEVEL_BY_RARITY r)) ≤ MAX_LEVEL_BY_RARITY r :=
    max_le (by omega) (min_le_right _ _)
  by_cases hmax : MAX_LEVEL_BY_RARITY r ≤ max 1 (min b (MAX_LEVEL_BY_RARITY r))
  · have hbool : (decide (MAX_LEVEL_BY_RARITY r ≤ max 1 (min b (MAX_LEVEL_BY_RARITY r))) ||
        decide (ProgressRoute.expNeededForLevel r
          (max 1 (min b (MAX_LEVEL_BY_RARITY r))) = 0)) = true := by
      simp [hmax]
    have he : ProgressRoute.entryCore r b x =
        ⟨max 1 (min b (MAX_LEVEL_BY_RARITY r)), 0, 0, true⟩ := by
      simp only [ProgressRoute.entryCore]
      rw [hbool, if_pos rfl]
    rw [he]
    exact ⟨hL1, hLM, fun _ => ⟨rfl, rfl⟩, fun h => Bool.noConfusion h,
      fun h => Bool.noConfusion h⟩
  · have hlt : max 1 (min b (MAX_LEVEL_BY_RARITY r)) < MAX_LEVEL_BY_RARITY r := by omega
    have hval := prog_expNeededForLevel_val r _ hL1 hlt
    have hpos : 0 <
        ProgressRoute.expNeededForLevel r (max 1 (min b (MAX_LEVEL_BY_RARITY r))) := by
      rw [hval]; omega
    have hbool : (decide (MAX_LEVEL_BY_RARITY r ≤ max 1 (min b (MAX_LEVEL_BY_RARITY r))) ||
        decide (ProgressRoute.expNeededForLevel r
          (max 1 (min b (MAX_LEVEL_BY_RARITY r))) = 0)) = false := by
      simp only [Bool.or_eq_false_iff, decide_eq_false_iff_not]
      exact ⟨hmax, by omega⟩
    by_cases hx : ProgressRoute.expNeededForLevel r
        (max 1 (min b (MAX_LEVEL_BY_RARITY r))) ≤ x
    · have he : ProgressRoute.entryCore r b x =
          ⟨max 1 (min b (MAX_LEVEL_BY_RARITY r)),
           max 0 (ProgressRoute.expNeededForLevel r
             (max 1 (min b (MAX_LEVEL_BY_RARITY r))) - 1),
           ProgressRoute.expNeededForLevel r (max 1 (min b (MAX_LEVEL_BY_RARITY r))),
           false⟩ := by
        simp only [ProgressRoute.entryCore]
        rw [hbool, if_neg (by decide), if_pos hx]
      rw [he]
      refine ⟨hL1, hLM, fun h => Bool.noConfusion h, fun _ => ?_, fun _ _ => ?_⟩
      · show max 0 (ProgressRoute.expNeededForLevel r
            (max 1 (min b (MAX_LEVEL_BY_RARITY r))) - 1) <
          ProgressRoute.expNeededForLevel r (max 1 (min b (MAX_LEVEL_BY_RARITY r)))
        rw [max_eq_right (by omega)]
        omega
      · show max 0 (ProgressRoute.expNeededForLevel r
            (max 1 (min b (MAX_LEVEL_BY_RARITY r))) - 1) =
          ProgressRoute.expNeededForLevel r (max 1 (min b (MAX_LEVEL_BY_RARITY r))) - 1
        rw [max_eq_right (by omega)]
    · have he : ProgressRoute.entryCore r b x =
          ⟨max 1 (min b (MAX_LEVEL_BY_RARITY r)), x,
           ProgressRoute.expNeededForLevel r (max 1 (min b (MAX_LEVEL_BY_RARITY r))),
           false⟩ := by
        simp only [ProgressRoute.entryCore]
        rw [hbool, if_neg (by decide), if_neg hx]
      rw [he]
      refine ⟨hL1, hLM, fun h => Bool.noConfusion h, fun _ => ?_, fun _ hc => absurd hc hx⟩
      show x < ProgressRoute.expNeededForLevel r (max 1 (min b (MAX_LEVEL_BY_RARITY r)))
      omega

/-- C10: every reported progress entry has its level clamped into
`[1, maxLevel(rarity)]`; a max entry reports exp 0 and threshold 0; a non-max
entry reports exp strictly below the threshold, equal to `threshold - 1` when
the stored exp was at or above it; and the route never writes storage. -/
theorem progress_report_invariants :
    (∀ (db : ProgressRoute.ProgDb) (t : String) (r : Rarity),
      1 ≤ (ProgressRoute.entryFor db t r).level ∧
      (ProgressRoute.entryFor db t r).level ≤ MAX_LEVEL_BY_RARITY r ∧
      ((ProgressRoute.entryFor db t r).isMax = true →
        (ProgressRoute.entryFor db t r).exp = 0 ∧
        (ProgressRoute.entryFor db t r).expNeededNext = 0) ∧
      ((ProgressRoute.entryFor db t r).isMax = false →
        (ProgressRoute.entryFor db t r).exp < (ProgressRoute.entryFor db t r).expNeededNext) ∧
      (∀ rec, db t = some rec → (ProgressRoute.entryFor db t r).isMax = false →
        (ProgressRoute.entryFor db t r).expNeededNext ≤ rec.exp.getD 0 →
        (ProgressRoute.entryFor db t r).exp =
          (ProgressRoute.entryFor db t r).expNeededNext - 1)) ∧
    (∀ (fs : FS) (fishes : List (String × Rarity)),
      (ProgressRoute.progressPOSTfs fs fishes).2 = fs) := by
  constructor
  · intro db t r
    have h := entryCore_inv r
      (match db t with | some rec => rec.level.getD 1 | none => 1)
      (match db t with | some rec => rec.exp.getD 0 | none => 0)
    refine ⟨h.1, h.2.1, h.2.2.1, h.2.2.2.1, ?_⟩
    intro rec hdb hm hle
    have hx : (ProgressRoute.entryFor db t r).expNeededNext ≤
        (match db t with | some rec => rec.exp.getD 0 | none => 0) := by
      rw [hdb]
      exact hle
    exact h.2.2.2.2 hm hx
  · intro fs fishes
    unfold ProgressRoute.progressPOSTfs
    by_cases h : fishes = []
    · rw [if_pos h]
    · rw [if_neg h]

/-- C10 witness: a stored record with level 99 and exp 5000 is reported at the
COMMON cap with exp 0. -/
theorem progress_report_invariants_w :
    (ProgressRoute.entryFor
        (fun k => if k = "5" then some ⟨some 99, some 5000, none, none⟩ else none)
        "5" Rarity.COMMON).exp = 0 ∧
    (ProgressRoute.entryFor
        (fun k => if k = "5" then some ⟨some 99, some 5000, none, none⟩ else none)
        "5" Rarity.COMMON).level = 15 := by
  have h := (progress_report_invariants.1
    (fun k => if k = "5" then some ⟨some 99, some 5000, none, none⟩ else none)
    "5" Rarity.COMMON).2.2.1 (by decide)
  exact ⟨h.1, by decide⟩

/-- Writes at one path leave every other path unchanged. -/
lemma setFile_other (fs : FS) (p q : String) (v : FileVal) (h : q ≠ p) :
    setFile fs p v q = fs q := by
  unfold setFile
  rw [if_neg h]

/-- Creating the feed db file touches only the feed db path. -/
lemma ensureDbFile_other (fs : FS) (q : String) (h : q ≠ feedDbPath) :
    FeedRoute.ensureDbFile fs q = fs q := by
  rcases h2 : fs feedDbPath with _ | v
  · simp only [FeedRoute.ensureDbFile, h2]
    exact setFile_other fs feedDbPath q _ h
  · simp only [FeedRoute.ensureDbFile, h2]

/-- The feed route touches only `data/betta-progress.json`. -/
lemma feedPOSTfs_frame (fs : FS) (a b c : String) (now : Int) (q : String)
    (h : q ≠ feedDbPath) : (FeedRoute.feedPOSTfs fs a b c now).2 q = fs q := by
  unfold FeedRoute.feedPOSTfs
  by_cases h1 : jsTrim a = "" ∨ jsToLower c = ""
  · rw [if_pos h1]
  · rw [if_neg h1]
    rcases h2 : parseRarity (jsToUpper b) with _ | r
    · simp only [h2]
    · simp only [h2]
      rcases h3 : (FeedRoute.feedCore (FeedRoute.loadFeedDb (FeedRoute.ensureDbFile fs))
          (jsTrim a) r now).write with _ | w
      · simp only [h3]
        exact ensureDbFile_other fs q h
      · simp only [h3]
        rw [setFile_other _ _ _ _ h]
        exact ensureDbFile_other fs q h

/-- A sequence of feed-route requests touches only the feed db path. -/
lemma runFeedsFS_frame (q : String) (h : q ≠ feedDbPath) :
    ∀ (calls : List (String × String × String × Int)) (fs : FS),
      FeedRoute.runFeedsFS fs calls q = fs q := by
  intro calls
  induction calls with
  | nil => intro fs; rfl
  | cons c rest ih =>
    intro fs
    show FeedRoute.runFeedsFS
      ((FeedRoute.feedPOSTfs fs c.1 c.2.1 c.2.2.1 c.2.2.2).2) rest q = fs q
    rw [ih]
    exact feedPOSTfs_frame fs c.1 c.2.1 c.2.2.1 c.2.2.2 q h

/-- The progress response depends on the filesystem only through the progress
db path. -/
lemma progressPOSTfs_resp_congr (fs1 fs2 : FS) (fishes : List (String × Rarity))
    (h : fs1 progDbPath = fs2 progDbPath) :
    (ProgressRoute.progressPOSTfs fs1 fishes).1 =
      (ProgressRoute.progressPOSTfs fs2 fishes).1 := by
  have hdb : ProgressRoute.loadProgDb fs1 = ProgressRoute.loadProgDb fs2 := by
    unfold ProgressRoute.loadProgDb
    rw [h]
  unfold ProgressRoute.progressPOSTfs
  rw [hdb]
  by_cases he : fishes = []
  · rw [if_pos he, if_pos he]
  · rw [if_neg he, if_neg he]

/-- C3: feed-route calls write only `data/betta-progress.json` while the
progress route reads only `database-fish.json`, so any sequence of feed calls
leaves every progress-query response unchanged. -/
theorem progress_query_unaffected_by_feed_writes
    (fs : FS) (calls : List (String × String × String × Int))
    (fishes : List (String × Rarity)) :
    (ProgressRoute.progressPOSTfs (FeedRoute.runFeedsFS fs calls) fishes).1 =
      (ProgressRoute.progressPOSTfs fs fishes).1 ∧
    (∀ q, q ≠ feedDbPath → FeedRoute.runFeedsFS fs calls q = fs q) :=
  ⟨progressPOSTfs_resp_congr _ _ fishes
      (runFeedsFS_frame progDbPath (by decide) calls fs),
   fun q hq => runFeedsFS_frame q hq calls fs⟩

/-- C3 witness: one concrete feed call does not change the progress response
for the fed token, and leaves the progress db path untouched. -/
theorem progress_query_unaffected_by_feed_writes_w :
    (ProgressRoute.progressPOSTfs
        (FeedRoute.runFeedsFS (fun _ => none) [("1", "COMMON", "0xab", 10)])
        [("1", Rarity.COMMON)]).1 =
      (ProgressRoute.progressPOSTfs (fun _ => none) [("1", Rarity.COMMON)]).1 ∧
    FeedRoute.runFeedsFS (fun _ => none) [("1", "COMMON", "0xab", 10)] progDbPath =
      (fun _ => none : FS) progDbPath :=
  ⟨(progress_query_unaffected_by_feed_writes (fun _ => none)
      [("1", "COMMON", "0xab", 10)] [("1", Rarity.COMMON)]).1,
   (progress_query_unaffected_by_feed_writes (fun _ => none)
      [("1", "COMMON", "0xab", 10)] [("1", Rarity.COMMON)]).2 progDbPath (by decide)⟩

end Betta
